import Mathlib

/-!
Verification development for the `find-my-way` routing engine
(`core/router_engine.py`, `core/ml_predictor.py`, and the routing-relevant
parts of `core/graph.py`).

The Python code is shallowly embedded: dictionaries with defaulted `get`
accesses become structures whose fields carry the retrieved values,
floating-point arithmetic is idealised as exact rational arithmetic (`ℚ`),
and the A* main loop becomes a fuel-indexed structural recursion whose fuel
is provably sufficient (see `find_route_aux_isSome_of_fuel`), so that the
embedded `find_route` computes by evaluation.

One deviation from the source is documented where it occurs: the code's
heuristic is `sqrt((ux-ex)^2 + (uy-ey)^2) * 100` over node positions, which
is irrational in general, so the search takes the heuristic as an explicit
function parameter `h : NodeId → ℚ`.  Universally quantified theorems
quantify over every such `h` (a superset of the heuristics the code can
produce), and each concrete graph in this file uses node positions that are
collinear with the goal on the x = 0 line, where the code's formula
`sqrt(0^2 + dy^2) * 100 = |dy| * 100` is exactly the rational function
supplied.
-/

attribute [local semireducible] Rat.add Rat.mul Rat.inv Rat.sub

/-- Node identifiers are strings (GTFS stop ids). -/
abbrev NodeId := String

/-- Node attribute dictionary: `data.get('name')` may be `None`, and
`data.get('pos')` may be absent (`get_node_pos` then defaults to `(0,0)`). -/
structure NodeData where
  name : Option String
  pos : Option (ℚ × ℚ)
deriving DecidableEq

/-- Edge attribute dictionary as read by the engine:
`edge_data.get('weight', 0)`, `edge_data.get('type', 'walk')`,
`edge_data.get('route_name', '')`.  The fields hold the retrieved values
(defaults already applied); `weight` is in seconds and may be any rational,
the engine itself never validates sign. -/
structure EdgeData where
  weight : ℚ
  type : String
  route_name : String
deriving DecidableEq

/-- Directed graph as the engine observes it through networkx: an
insertion-ordered node list and an insertion-ordered edge list
(`nx.DiGraph` keeps at most one edge per ordered pair; the list form does
not enforce that, which only widens the universally quantified theorems). -/
structure Graph where
  nodes : List (NodeId × NodeData)
  edges : List (NodeId × NodeId × EdgeData)
deriving DecidableEq

/-- The ids present in the graph, in storage order (`node in G`). -/
def nodeIds (G : Graph) : List NodeId := G.nodes.map Prod.fst

/-- Lookup of a node's attribute dictionary (`G.nodes[node_id]`). -/
def lookupNode (G : Graph) (node_id : NodeId) : Option NodeData :=
  (G.nodes.find? (fun p => p.1 == node_id)).map Prod.snd

/-- GraphRepository.get_node_name: `G.nodes[node_id].get('name', 'Unknown')`. -/
def get_node_name (G : Graph) (node_id : NodeId) : String :=
  match lookupNode G node_id with
  | some d => d.name.getD "Unknown"
  | none => "Unknown"

/-- Only the wall-clock fields the engine reads: `datetime.hour` feeds the
traffic predictor and `replace(hour=h, minute=m)` sets both fields. -/
structure Time where
  hour : Nat
  minute : Nat
deriving DecidableEq

/-- TrafficPredictor.predict_delay_factor from `core/ml_predictor.py`. -/
def predict_delay_factor (hour : Nat) : ℚ :=
  if (7 ≤ hour ∧ hour ≤ 9) ∨ (17 ≤ hour ∧ hour ≤ 20) then 3/2
  else if 0 ≤ hour ∧ hour ≤ 5 then 1/2
  else 1

/-- The three routing strategies (`FastestStrategy`, `ComfortStrategy`,
`EconomicStrategy`); the Python classes carry no state, so an enumeration
with a dispatch function is an exact rendering. -/
inductive Strategy
  | fastest
  | comfort
  | economic
deriving DecidableEq

/-- Python class name of a strategy, used in the result's `strategy_name`. -/
def strategyClassName : Strategy → String
  | .fastest => "FastestStrategy"
  | .comfort => "ComfortStrategy"
  | .economic => "EconomicStrategy"

/-- FastestStrategy.calculate_cost: `(seconds * multiplier) / 60.0` with the
traffic multiplier applied only to bus/minibus edges. -/
def fastest_cost (edge_data : EdgeData) (current_time : Time) : ℚ :=
  let seconds := edge_data.weight
  let multiplier : ℚ :=
    if edge_data.type = "bus" ∨ edge_data.type = "minibus" then
      predict_delay_factor current_time.hour
    else 1
  (seconds * multiplier) / 60

/-- calculate_cost of each strategy class.  Comfort and Economic both start
from `FastestStrategy().calculate_cost(...)` exactly as the source does. -/
def calculate_cost (strategy : Strategy) (edge_data : EdgeData) (current_time : Time) : ℚ :=
  match strategy with
  | .fastest => fastest_cost edge_data current_time
  | .comfort =>
    let base_cost := fastest_cost edge_data current_time
    if edge_data.type = "metro" ∨ edge_data.type = "rail" ∨ edge_data.type = "tram" then
      base_cost * (8/10)
    else if edge_data.type = "bus" ∨ edge_data.type = "minibus" then
      base_cost * (12/10)
    else base_cost
  | .economic =>
    let base_cost := fastest_cost edge_data current_time
    if edge_data.type = "walk" then base_cost * (5/10) else base_cost

/-- PROFILE_CONFIGS mode_penalties lookup from `core/graph.py`:
`config["mode_penalties"].get(line_type, 0)` where an unknown profile falls
back to the FASTEST config (empty penalty table). -/
def mode_penalty (profile_type : String) (line_type : String) : ℚ :=
  if profile_type = "COMFORT" then
    if line_type = "Bus" then 5
    else if line_type = "Tram" then 5
    else 0
  else 0

/-- get_perceived_cost from `core/graph.py`: travel time plus the profile's
mode penalty, plus a slope surcharge for steep walking under COMFORT,
clamped at 0 by `max(0, cost)`. -/
def get_perceived_cost (travel_mins : ℚ) (line_type : String) (profile_type : String)
    (slope : ℚ) : ℚ :=
  let cost := travel_mins + mode_penalty profile_type line_type
  let cost :=
    if line_type = "Walking" ∧ slope > 5/100 ∧ profile_type = "COMFORT" then
      cost + slope * 100
    else cost
  max 0 cost

/-- RouteStep dataclass.  `slope` is declared with default 0.0 and the
engine never sets it. -/
structure RouteStep where
  from_node : String
  to_node : String
  mode : String
  route_name : String
  duration_mins : ℚ
  slope : ℚ
deriving DecidableEq

/-- RouteResult dataclass. -/
structure RouteResult where
  strategy_name : String
  total_duration_mins : ℚ
  path : List RouteStep
deriving DecidableEq

/-- One frontier tuple `(f_score, node_id, path_history, current_time,
g_score)`.  The `current_time` component is omitted: the engine pushes the
unchanged `curr_dt` on every edge, so every queued tuple carries the same
start time and that component never influences a comparison. -/
structure Entry where
  f : ℚ
  node : NodeId
  path : List RouteStep
  g : ℚ
deriving DecidableEq

/-- Lexicographic code-point comparison of character lists: Python's `<`
on strings (and Lean's `<` on `String`, which compares the same way). -/
def chars_lt : List Char → List Char → Bool
  | [], [] => false
  | [], _ :: _ => true
  | _ :: _, [] => false
  | a :: as, b :: bs =>
    if a.toNat < b.toNat then true
    else if b.toNat < a.toNat then false
    else chars_lt as bs

/-- Python's `<` on node-id strings. -/
def node_lt (x y : NodeId) : Bool := chars_lt x.data y.data

/-- The strict order `heapq` actually applies to the queued tuples: Python
tuple comparison reaches the second component (the node id) whenever the
`f` scores tie.  Comparison can never need to go past the node id in a
reachable queue: two simultaneous entries for the same node would need
equal `f`, but every later push for a node strictly lowers its `g` and
hence its `f = g + h(node)`. -/
def entry_lt (x y : Entry) : Bool :=
  decide (x.f < y.f) || (decide (x.f = y.f) && node_lt x.node y.node)

/-- The tie-break order the spec asks for: `f`, then `g`, then node id.
Modelled from the spec: used only to compare the spec's claimed ordering
against the code's (`entry_lt`). -/
def entry_lt_spec (x y : Entry) : Bool :=
  decide (x.f < y.f) ||
    (decide (x.f = y.f) &&
      (decide (x.g < y.g) || (decide (x.g = y.g) && node_lt x.node y.node)))

/-- heapq.heappop: remove the least entry under the given strict order,
keeping the earlier-queued entry when two entries compare equal (the
choice is immaterial for the code's order, whose ties cannot occur in
reachable queues — see `entry_lt`). -/
def popMin (lt : Entry → Entry → Bool) : List Entry → Option (Entry × List Entry)
  | [] => none
  | e :: es =>
    match popMin lt es with
    | none => some (e, [])
    | some (m, rest) => if lt m e then some (m, e :: rest) else some (e, es)

/-- Neighbor iteration `for v in G[u]`, yielding `(v, G[u][v])` in edge
insertion order. -/
def successors (G : Graph) (u : NodeId) : List (NodeId × EdgeData) :=
  G.edges.filterMap (fun e => if e.1 == u then some (e.2.1, e.2.2) else none)

/-- The inner relaxation loop of `find_route`: for each neighbor edge,
compute the strategy cost, and when the new `g` beats
`min_costs.get(v, inf)` record it and push the extended entry. -/
def relax (G : Graph) (strategy : Strategy) (t : Time) (h : NodeId → ℚ)
    (u : NodeId) (path : List RouteStep) (g : ℚ) :
    List (NodeId × EdgeData) → List Entry → (NodeId → Option ℚ) →
      List Entry × (NodeId → Option ℚ)
  | [], queue, min_costs => (queue, min_costs)
  | (v, edge_data) :: ns, queue, min_costs =>
    let step_cost := calculate_cost strategy edge_data t
    let new_g := g + step_cost
    let better : Bool :=
      match min_costs v with
      | some c => decide (new_g < c)
      | none => true
    if better then
      let min_costs' := fun n => if n = v then some new_g else min_costs n
      let new_step : RouteStep :=
        ⟨get_node_name G u, get_node_name G v, edge_data.type, edge_data.route_name,
          step_cost, 0⟩
      relax G strategy t h u path g ns
        (queue ++ [⟨new_g + h v, v, path ++ [new_step], new_g⟩]) min_costs'
    else
      relax G strategy t h u path g ns queue min_costs

/-- MAX_VISIT, the circuit breaker on expanded (non-stale) pops. -/
def MAX_VISIT : Nat := 5000

/-- The `while queue:` loop of `find_route`.  `budget` counts the
expansions still allowed before the circuit breaker fires
(`MAX_VISIT - visited_count`); `fuel` is a structural-recursion index with
outer result `none` on exhaustion — `find_route_aux_isSome_of_fuel` proves
that the fuel supplied by `find_route` can never run out, so the inner
`Option RouteResult` is exactly the Python return value. -/
def find_route_aux (lt : Entry → Entry → Bool) (G : Graph) (strategy : Strategy)
    (t : Time) (end_id : NodeId) (h : NodeId → ℚ) :
    Nat → List Entry → (NodeId → Option ℚ) → Nat → Option (Option RouteResult)
  | 0, _, _, _ => none
  | fuel + 1, queue, min_costs, budget =>
    match popMin lt queue with
    | none => some none
    | some (en, rest) =>
      if en.node = end_id then
        some (some ⟨"Advanced (" ++ strategyClassName strategy ++ ")", en.g, en.path⟩)
      else if (match min_costs en.node with
               | some c => decide (c < en.g)
               | none => false) then
        find_route_aux lt G strategy t end_id h fuel rest min_costs budget
      else
        match budget with
        | 0 => some none
        | b + 1 =>
          let st := relax G strategy t h en.node en.path en.g
            (successors G en.node) rest min_costs
          find_route_aux lt G strategy t end_id h fuel st.1 st.2 b

/-- Fuel that provably suffices for the whole search (one unit above the
measure `queue.length + budget * (edges + 1)` of the initial state). -/
def big_fuel (G : Graph) : Nat := 2 + MAX_VISIT * (G.edges.length + 1)

/-- IstanbulRouter.find_route.  The initial queue holds
`(0, start_id, [], start_time, 0.0)` and `min_costs = {start_id: 0.0}`. -/
def find_route (G : Graph) (start_id end_id : NodeId) (start_time : Time)
    (strategy : Strategy) (h : NodeId → ℚ) : Option RouteResult :=
  if start_id ∈ nodeIds G ∧ end_id ∈ nodeIds G then
    (find_route_aux entry_lt G strategy start_time end_id h (big_fuel G)
      [⟨0, start_id, [], 0⟩]
      (fun n => if n = start_id then some 0 else none) MAX_VISIT).getD none
  else none

/-- Modelled from the spec: the same search, but popping frontier entries
in the spec's claimed tie-break order (`f`, then `g`, then node id) instead
of the code's (`f`, then node id).  Used only to exhibit that the two
orders are observably different. -/
def find_route_spec_order (G : Graph) (start_id end_id : NodeId) (start_time : Time)
    (strategy : Strategy) (h : NodeId → ℚ) : Option RouteResult :=
  if start_id ∈ nodeIds G ∧ end_id ∈ nodeIds G then
    (find_route_aux entry_lt_spec G strategy start_time end_id h (big_fuel G)
      [⟨0, start_id, [], 0⟩]
      (fun n => if n = start_id then some 0 else none) MAX_VISIT).getD none
  else none

/-- Python's substring test `needle in hay` on character lists. -/
def substr_in (needle : List Char) : List Char → Bool
  | [] => needle.isEmpty
  | c :: rest => needle.isPrefixOf (c :: rest) || substr_in needle rest

/-- ASCII lowercasing of one character (`str.lower`; the full Unicode
lowering table of the interpreter is idealised to its ASCII core). -/
def lower_char (c : Char) : Char :=
  if 65 ≤ c.toNat ∧ c.toNat ≤ 90 then Char.ofNat (c.toNat + 32) else c

/-- `str.lower` over the characters of a string. -/
def lower_chars (cs : List Char) : List Char := cs.map lower_char

/-- One candidate check of GraphRepository.find_node_by_name: skip nodes
whose `name` attribute is absent, lowercase the stored name, and test
whether the lowercased query occurs inside it.  (Python's `str(raw_name)`
coercion of non-string names is idealised: names are strings.) -/
def name_matches (search_name : String) (d : NodeData) : Bool :=
  match d.name with
  | none => false
  | some nm => substr_in (lower_chars search_name.data) (lower_chars nm.data)

/-- The `for node, data in self.G.nodes(data=True):` loop, over the
storage-ordered node list. -/
def find_node_aux (search_name : String) : List (NodeId × NodeData) → Option NodeId
  | [] => none
  | (node, data) :: rest =>
    if name_matches search_name data then some node
    else find_node_aux search_name rest

/-- GraphRepository.find_node_by_name: `if not search_name: return None`,
then the first storage-order node whose lowercased name contains the
lowercased query. -/
def find_node_by_name (G : Graph) (search_name : String) : Option NodeId :=
  if search_name = "" then none else find_node_aux search_name G.nodes

/-- Insertion of a node into an id-sorted list (for the spec-side sorted
resolver). -/
def insert_by_id (p : NodeId × NodeData) :
    List (NodeId × NodeData) → List (NodeId × NodeData)
  | [] => [p]
  | q :: rest => if node_lt q.1 p.1 then q :: insert_by_id p rest else p :: q :: rest

/-- Insertion sort of the node list by node id. -/
def sort_by_id : List (NodeId × NodeData) → List (NodeId × NodeData)
  | [] => []
  | p :: rest => insert_by_id p (sort_by_id rest)

/-- Modelled from the spec: the resolver the claim describes, iterating
over nodes sorted by node id rather than in storage order.  Used only to
compare against the code's `find_node_by_name`. -/
def find_node_by_name_sorted (G : Graph) (search_name : String) : Option NodeId :=
  if search_name = "" then none else find_node_aux search_name (sort_by_id G.nodes)

/-- ASCII whitespace, as stripped by Python's `int` before parsing. -/
def is_space (c : Char) : Bool :=
  c = ' ' || c = '\t' || c = '\n' || c = '\r' || c.toNat = 11 || c.toNat = 12

/-- ASCII digit test. -/
def is_digit (c : Char) : Bool := 48 ≤ c.toNat ∧ c.toNat ≤ 57

/-- Strip leading and trailing whitespace from a character list. -/
def trim_chars (cs : List Char) : List Char :=
  ((cs.dropWhile is_space).reverse.dropWhile is_space).reverse

/-- Python's `s.split(":")`: the `:`-separated pieces, empty pieces kept. -/
def split_colon : List Char → List (List Char)
  | [] => [[]]
  | c :: rest =>
    if c = ':' then [] :: split_colon rest
    else
      match split_colon rest with
      | [] => [[c]]
      | piece :: pieces => (c :: piece) :: pieces

/-- Python's `int(s)` restricted to what the time parser can meet: optional
surrounding whitespace, an optional single sign, then at least one ASCII
digit.  (Numeric underscores, accepted by Python 3, are not modelled.) -/
def py_int (cs : List Char) : Option ℤ :=
  let t := trim_chars cs
  let signed : ℤ × List Char :=
    match t with
    | '-' :: rest => (-1, rest)
    | '+' :: rest => (1, rest)
    | _ => (1, t)
  if signed.2 ≠ [] ∧ signed.2.all is_digit then
    some (signed.1 * (signed.2.foldl (fun acc c => acc * 10 + (c.toNat - 48)) 0 : Nat))
  else none

/-- The `try` block of find_advanced_path's time handling:
`h, m = map(int, time_str.split(":"))` followed by
`now.replace(hour=h, minute=m)`.  Any raised exception — wrong number of
`:`-separated fields, a non-integer field, or an out-of-range hour/minute
(which makes `replace` raise ValueError) — is swallowed by the bare
`except`, so parsing fails exactly when this returns `none`. -/
def parse_hm (s : String) : Option (Nat × Nat) :=
  match split_colon s.data with
  | [a, b] =>
    match py_int a, py_int b with
    | some hh, some mm =>
      if 0 ≤ hh ∧ hh ≤ 23 ∧ 0 ≤ mm ∧ mm ≤ 59 then some (hh.toNat, mm.toNat)
      else none
    | _, _ => none
  | _ => none

/-- The departure time find_advanced_path hands to the search: the parsed
`HH:MM` written into the current process time when parsing succeeds, the
current process time otherwise (also when the string is absent or empty —
`if time_str:` — since the empty string also fails `parse_hm`). -/
def departure_time (time_str : Option String) (now : Time) : Time :=
  match time_str with
  | none => now
  | some s =>
    match parse_hm s with
    | some (hh, mm) => ⟨hh, mm⟩
    | none => now

/-- Strategy selection: `strategies.get(strategy_type, FastestStrategy())`. -/
def select_strategy (strategy_type : String) : Strategy :=
  if strategy_type = "fastest" then .fastest
  else if strategy_type = "comfort" then .comfort
  else if strategy_type = "economic" then .economic
  else .fastest

/-- Python's `round(x, 2)` on exact rationals: round half to even at the
second decimal (the binary-float noise of the real interpreter is
idealised away). -/
def py_round2 (q : ℚ) : ℚ :=
  let scaled := q * 100
  let fl : ℤ := ⌊scaled⌋
  let frac := scaled - fl
  let n : ℤ :=
    if frac < 1/2 then fl
    else if 1/2 < frac then fl + 1
    else if fl % 2 = 0 then fl else fl + 1
  (n : ℚ) / 100

/-- One `transport` value in the serialized route: either a segment's
type/route/duration dictionary or the literal `"ARRIVED"`. -/
inductive Transport
  | info (type : String) (route_name : String) (duration_sec : ℚ)
  | arrived
deriving DecidableEq

/-- One element of the serialized `route` list. -/
structure Segment where
  from_stop_name : String
  transport : Transport
deriving DecidableEq

/-- The dictionary find_advanced_path returns: either
`{"status": "error", "message": ...}` or the success payload. -/
inductive ApiResult
  | err (message : String)
  | success (total_time_min : ℚ) (stops : Nat) (route : List Segment)
      (engine : String) (strategy : String)
deriving DecidableEq

/-- Endpoint resolution in find_advanced_path: keep the identifier when it
is a node id, otherwise attempt the fuzzy name search. -/
def resolve_endpoint (G : Graph) (x : String) : Option NodeId :=
  if x ∈ nodeIds G then some x else find_node_by_name G x

/-- Steps 4–5 of find_advanced_path: run the router and format the result,
appending the `ARRIVED` sentinel when the path is nonempty. -/
def find_advanced_path_core (G : Graph) (real_start real_end : NodeId) (t : Time)
    (strategy : Strategy) (h : NodeId → ℚ) : ApiResult :=
  match find_route G real_start real_end t strategy h with
  | none => .err "No route found via Advanced Engine."
  | some result =>
    let segs := result.path.map (fun step =>
      Segment.mk step.from_node (.info step.mode step.route_name (step.duration_mins * 60)))
    let route :=
      match result.path.getLast? with
      | none => segs
      | some last => segs ++ [⟨last.to_node, .arrived⟩]
    .success (py_round2 result.total_duration_mins) result.path.length route
      "Advanced A* v3.1" (strategyClassName strategy)

/-- find_advanced_path.  The process clock (`datetime.now()`) and the
heuristic (see the header comment) are injected as parameters. -/
def find_advanced_path (G : Graph) (start_node end_node : String)
    (time_str : Option String) (strategy_type : String) (now : Time)
    (h : NodeId → ℚ) : ApiResult :=
  match resolve_endpoint G start_node with
  | none => .err ("Start '" ++ start_node ++ "' not found.")
  | some real_start =>
    match resolve_endpoint G end_node with
    | none => .err ("End '" ++ end_node ++ "' not found.")
    | some real_end =>
      find_advanced_path_core G real_start real_end (departure_time time_str now)
        (select_strategy strategy_type) h

/-- The heuristic of a positionless graph: every `pos` is absent, so
`get_node_pos` yields `(0,0)` everywhere and the code's
`sqrt(dx^2 + dy^2) * 100` is identically 0. -/
def h_zero : NodeId → ℚ := fun _ => 0

/-- The spec's comfort scenario: bus A→B of 600 s against metro
A→M of 360 s and M→B of 360 s.  No positions, so the heuristic is 0. -/
def comfortGraph : Graph :=
  { nodes := [("A", ⟨some "A", none⟩), ("M", ⟨some "M", none⟩), ("B", ⟨some "B", none⟩)]
    edges := [("A", "B", ⟨600, "bus", ""⟩),
              ("A", "M", ⟨360, "metro", ""⟩),
              ("M", "B", ⟨360, "metro", ""⟩)] }

/-- Noon departure: hour 12 is outside both traffic windows. -/
def noon : Time := ⟨12, 0⟩

/-- The metro route the comfort search returns on `comfortGraph`. -/
def comfortResult : RouteResult :=
  ⟨"Advanced (ComfortStrategy)", 48/5,
    [⟨"A", "M", "metro", "", 24/5, 0⟩, ⟨"M", "B", "metro", "", 24/5, 0⟩]⟩

/-- Tie-break scenario.  Positions lie on the x = 0 line with the goal `e`
at the origin, so the code's heuristic is `|y| * 100` exactly: 5 for `s`,
1 for `a`, 3 for `b`, 0 for `e` (see `h_tie`).  Edge costs (walk, so no
traffic factor) are 4, 2, 1 and 3 minutes, making both frontier entries
after expanding `s` carry `f = 5` while their `g` differ (4 via `a`,
2 via `b`). -/
def tieGraph : Graph :=
  { nodes := [("s", ⟨some "s", some (0, 1/20)⟩), ("a", ⟨some "a", some (0, 1/100)⟩),
              ("b", ⟨some "b", some (0, 3/100)⟩), ("e", ⟨some "e", some (0, 0)⟩)]
    edges := [("s", "a", ⟨240, "walk", ""⟩),
              ("s", "b", ⟨120, "walk", ""⟩),
              ("a", "e", ⟨60, "walk", ""⟩),
              ("b", "e", ⟨180, "walk", ""⟩)] }

/-- The code's heuristic on `tieGraph`: `sqrt((x-0)^2 + (y-0)^2) * 100`
evaluated at the positions above, all of which have x = 0. -/
def h_tie : NodeId → ℚ := fun n =>
  if n = "s" then 5 else if n = "a" then 1 else if n = "b" then 3 else 0

/-- The two frontier entries queued together after `s` is expanded. -/
def entryViaA : Entry := ⟨5, "a", [⟨"s", "a", "walk", "", 4, 0⟩], 4⟩

/-- Companion entry with the same `f` but lower `g` and larger node id. -/
def entryViaB : Entry := ⟨5, "b", [⟨"s", "b", "walk", "", 2, 0⟩], 2⟩

/-- Two stops, no edges: the disconnected graph of the spec's liveness
test. -/
def islandGraph : Graph :=
  { nodes := [("A", ⟨some "Start", none⟩), ("Z", ⟨some "Island", none⟩)]
    edges := [] }


/-- Two nodes whose names share the substring "kadikoy", stored with the
lexicographically larger id first. -/
def kadikoyGraph : Graph :=
  { nodes := [("b", ⟨some "Kadikoy Iskele", none⟩), ("a", ⟨some "Kadikoy Carsi", none⟩)]
    edges := [] }

/-- A walk through the graph as the search records it: starting at `s`,
each appended RouteStep is built from an actual graph edge `(u, v, d)` out
of the current node, carries exactly the selected strategy's cost of that
edge at the (fixed) departure time, and the accumulated total is the sum
so far. -/
inductive Chain (G : Graph) (strat : Strategy) (t : Time) :
    NodeId → List RouteStep → ℚ → NodeId → Prop where
  | nil (u : NodeId) : Chain G strat t u [] 0 u
  | cons {s u v : NodeId} {p : List RouteStep} {g : ℚ} {d : EdgeData} :
      Chain G strat t s p g u → (u, v, d) ∈ G.edges →
      Chain G strat t s
        (p ++ [⟨get_node_name G u, get_node_name G v, d.type, d.route_name,
          calculate_cost strat d t, 0⟩])
        (g + calculate_cost strat d t) v

/-- The frontier invariant: a queued entry's path is a `Chain` from the
search's start node to the entry's node with the entry's `g` as total. -/
def EntryInv (G : Graph) (strat : Strategy) (t : Time) (s0 : NodeId)
    (en : Entry) : Prop :=
  Chain G strat t s0 en.path en.g en.node

/-- C1: the Fastest strategy's cost in minutes equals the edge's base
duration in seconds divided by 60, multiplied by the hour-of-day traffic
multiplier — 1.5 on hours 7–9 and 17–20, 0.5 on hours 0–5, 1 otherwise —
applied exactly when the edge's mode is bus or minibus, and the cost is the
unmultiplied base/60 for every other mode. -/
theorem C1_fastest_cost_table (e : EdgeData) (t : Time) :
    calculate_cost .fastest e t =
      (e.weight / 60) *
        (if e.type = "bus" ∨ e.type = "minibus" then
          (if (7 ≤ t.hour ∧ t.hour ≤ 9) ∨ (17 ≤ t.hour ∧ t.hour ≤ 20) then 3/2
           else if 0 ≤ t.hour ∧ t.hour ≤ 5 then 1/2
           else 1)
         else 1) := by
  simp only [calculate_cost, fastest_cost, predict_delay_factor]
  split_ifs <;> ring

/-- C2 counterexample: the code's frontier pops by `(f, node_id)`, not by
`(f, g, node_id)`.  With `entryViaA` and `entryViaB` simultaneously queued
(exactly the frontier reached in `find_route tieGraph "s" "e"` after the
start node is expanded), both carry `f = 5`, the entry via `b` has the
strictly lower `g`, yet the pop takes the entry via `a` because `"a" < "b"`
— and the claimed order is observably different: running the same search
with the claimed `(f, g, id)` tie-break returns a different route. -/
theorem C2_counterexample :
    popMin entry_lt [entryViaA, entryViaB] = some (entryViaA, [entryViaB]) ∧
    entryViaA.f = entryViaB.f ∧ entryViaB.g < entryViaA.g ∧
    find_route tieGraph "s" "e" noon .fastest h_tie =
      some ⟨"Advanced (FastestStrategy)", 5,
        [⟨"s", "a", "walk", "", 4, 0⟩, ⟨"a", "e", "walk", "", 1, 0⟩]⟩ ∧
    find_route_spec_order tieGraph "s" "e" noon .fastest h_tie =
      some ⟨"Advanced (FastestStrategy)", 5,
        [⟨"s", "b", "walk", "", 2, 0⟩, ⟨"b", "e", "walk", "", 3, 0⟩]⟩ ∧
    find_route tieGraph "s" "e" noon .fastest h_tie ≠
      find_route_spec_order tieGraph "s" "e" noon .fastest h_tie := by
  refine ⟨by decide, by decide, by decide, by decide, by decide, by decide⟩

theorem chars_lt_irrefl (l : List Char) : chars_lt l l = false := by
  induction l with
  | nil => rfl
  | cons a as ih => simp [chars_lt, ih]

theorem chars_lt_trans {a b c : List Char} (hab : chars_lt a b = true)
    (hbc : chars_lt b c = true) : chars_lt a c = true := by
  induction a generalizing b c with
  | nil =>
    cases c with
    | nil => cases b <;> simp [chars_lt] at hab hbc
    | cons z zs => rfl
  | cons x xs ih =>
    cases b with
    | nil => simp [chars_lt] at hab
    | cons y ys =>
      cases c with
      | nil => simp [chars_lt] at hbc
      | cons z zs =>
        simp only [chars_lt] at hab hbc ⊢
        by_cases h1 : x.toNat < y.toNat
        · by_cases h3 : y.toNat < z.toNat
          · rw [if_pos (h1.trans h3)]
          · by_cases h4 : z.toNat < y.toNat
            · rw [if_neg h3, if_pos h4] at hbc
              exact absurd hbc (by simp)
            · rw [if_pos (by omega : x.toNat < z.toNat)]
        · by_cases h2 : y.toNat < x.toNat
          · rw [if_neg h1, if_pos h2] at hab
            exact absurd hab (by simp)
          · rw [if_neg h1, if_neg h2] at hab
            by_cases h3 : y.toNat < z.toNat
            · rw [if_pos (by omega : x.toNat < z.toNat)]
            · by_cases h4 : z.toNat < y.toNat
              · rw [if_neg h3, if_pos h4] at hbc
                exact absurd hbc (by simp)
              · rw [if_neg h3, if_neg h4] at hbc
                rw [if_neg (by omega : ¬ x.toNat < z.toNat),
                  if_neg (by omega : ¬ z.toNat < x.toNat)]
                exact ih hab hbc

theorem char_toNat_inj {a b : Char} (h : a.toNat = b.toNat) : a = b :=
  Char.ext (UInt32.ext h)

theorem chars_lt_conn {a b : List Char} (hab : chars_lt a b = false)
    (hba : chars_lt b a = false) : a = b := by
  induction a generalizing b with
  | nil => cases b with
    | nil => rfl
    | cons y ys => simp [chars_lt] at hab
  | cons x xs ih =>
    cases b with
    | nil => simp [chars_lt] at hba
    | cons y ys =>
      simp only [chars_lt] at hab hba
      by_cases h1 : x.toNat < y.toNat
      · rw [if_pos h1] at hab
        exact absurd hab (by simp)
      · by_cases h2 : y.toNat < x.toNat
        · rw [if_pos h2] at hba
          exact absurd hba (by simp)
        · rw [if_neg h1, if_neg h2] at hab
          rw [if_neg h2, if_neg h1] at hba
          have hxy : x = y := char_toNat_inj (by omega)
          have htail := ih hab hba
          simp [hxy, htail]

theorem entry_lt_iff (x y : Entry) :
    entry_lt x y = true ↔
      x.f < y.f ∨ (x.f = y.f ∧ chars_lt x.node.data y.node.data = true) := by
  simp [entry_lt, node_lt, Bool.or_eq_true, Bool.and_eq_true, decide_eq_true_eq]

theorem entry_lt_irrefl (x : Entry) : entry_lt x x = false := by
  rw [Bool.eq_false_iff]
  intro h
  rcases (entry_lt_iff x x).mp h with h' | ⟨_, h'⟩
  · exact lt_irrefl _ h'
  · simp [chars_lt_irrefl] at h'

theorem entry_lt_trans {x y z : Entry} (hxy : entry_lt x y = true)
    (hyz : entry_lt y z = true) : entry_lt x z = true := by
  rcases (entry_lt_iff x y).mp hxy with h1 | ⟨h1, h1'⟩ <;>
    rcases (entry_lt_iff y z).mp hyz with h2 | ⟨h2, h2'⟩
  · exact (entry_lt_iff x z).mpr (Or.inl (lt_trans h1 h2))
  · exact (entry_lt_iff x z).mpr (Or.inl (h2 ▸ h1))
  · exact (entry_lt_iff x z).mpr (Or.inl (h1 ▸ h2))
  · exact (entry_lt_iff x z).mpr (Or.inr ⟨h1.trans h2, chars_lt_trans h1' h2'⟩)

theorem entry_lt_conn {x y : Entry} (hxy : entry_lt x y = false)
    (hyx : entry_lt y x = false) : x.f = y.f ∧ x.node = y.node := by
  have hxy' := Bool.eq_false_iff.mp hxy
  have hyx' := Bool.eq_false_iff.mp hyx
  have hf : x.f = y.f := by
    by_contra hne
    rcases lt_or_gt_of_ne hne with h | h
    · exact hxy' ((entry_lt_iff x y).mpr (Or.inl h))
    · exact hyx' ((entry_lt_iff y x).mpr (Or.inl h))
  refine ⟨hf, ?_⟩
  have hcb : chars_lt x.node.data y.node.data = false := by
    rw [Bool.eq_false_iff]
    intro hc
    exact hxy' ((entry_lt_iff x y).mpr (Or.inr ⟨hf, hc⟩))
  have hcb' : chars_lt y.node.data x.node.data = false := by
    rw [Bool.eq_false_iff]
    intro hc
    exact hyx' ((entry_lt_iff y x).mpr (Or.inr ⟨hf.symm, hc⟩))
  exact String.ext (chars_lt_conn hcb hcb')

theorem entry_lt_negtrans {x m e : Entry} (hxm : entry_lt x m = false)
    (hme : entry_lt m e = false) : entry_lt x e = false := by
  rw [Bool.eq_false_iff]
  intro hxe
  cases hmx : entry_lt m x with
  | true =>
    exact Bool.eq_false_iff.mp hme (entry_lt_trans hmx hxe)
  | false =>
    obtain ⟨hf, hn⟩ := entry_lt_conn hxm hmx
    have : entry_lt x e = entry_lt m e := by
      simp [entry_lt, node_lt, hf, hn]
    rw [this] at hxe
    exact Bool.eq_false_iff.mp hme hxe

theorem entry_lt_asymm {x y : Entry} (h : entry_lt x y = true) :
    entry_lt y x = false := by
  rw [Bool.eq_false_iff]
  intro h2
  have h3 := entry_lt_trans h h2
  rw [entry_lt_irrefl] at h3
  exact Bool.false_ne_true h3

theorem popMin_eq_none {lt : Entry → Entry → Bool} {q : List Entry}
    (h : popMin lt q = none) : q = [] := by
  cases q with
  | nil => rfl
  | cons e es =>
    exfalso
    simp only [popMin] at h
    cases hm : popMin lt es with
    | none => rw [hm] at h; exact Option.some_ne_none _ h
    | some p =>
      obtain ⟨m, r⟩ := p
      rw [hm] at h
      by_cases hlt : lt m e = true <;> simp [hlt] at h

theorem popMin_mem (lt : Entry → Entry → Bool) :
    ∀ (q : List Entry) (en : Entry) (rest : List Entry),
      popMin lt q = some (en, rest) → en ∈ q := by
  intro q
  induction q with
  | nil => intro en rest h; simp [popMin] at h
  | cons e es ih =>
    intro en rest h
    simp only [popMin] at h
    cases hm : popMin lt es with
    | none =>
      rw [hm] at h
      simp only [Option.some.injEq, Prod.mk.injEq] at h
      obtain ⟨rfl, -⟩ := h
      exact List.mem_cons_self e es
    | some p =>
      obtain ⟨m, r⟩ := p
      rw [hm] at h
      by_cases hlt : lt m e = true
      · simp only [hlt, if_true, Option.some.injEq, Prod.mk.injEq] at h
        obtain ⟨rfl, -⟩ := h
        exact List.mem_cons_of_mem e (ih _ _ hm)
      · simp only [hlt, if_false, Option.some.injEq, Prod.mk.injEq,
          Bool.not_eq_true] at h
        obtain ⟨rfl, -⟩ := h
        exact List.mem_cons_self e es

theorem popMin_not_lt :
    ∀ (q : List Entry) (en : Entry) (rest : List Entry) (x : Entry),
      popMin entry_lt q = some (en, rest) → x ∈ q → entry_lt x en = false := by
  intro q
  induction q with
  | nil => intro en rest x h; simp [popMin] at h
  | cons e es ih =>
    intro en rest x h hx
    simp only [popMin] at h
    cases hm : popMin entry_lt es with
    | none =>
      have hes : es = [] := popMin_eq_none hm
      subst hes
      rw [hm] at h
      simp only [Option.some.injEq, Prod.mk.injEq] at h
      obtain ⟨rfl, -⟩ := h
      simp only [List.mem_singleton] at hx
      subst hx
      exact entry_lt_irrefl x
    | some p =>
      obtain ⟨m, r⟩ := p
      rw [hm] at h
      by_cases hlt : entry_lt m e = true
      · simp only [hlt, if_true, Option.some.injEq, Prod.mk.injEq] at h
        obtain ⟨rfl, -⟩ := h
        rcases List.mem_cons.mp hx with rfl | hx'
        · exact entry_lt_asymm hlt
        · exact ih _ _ x hm hx'
      · simp only [hlt, if_false, Option.some.injEq, Prod.mk.injEq,
          Bool.not_eq_true] at h
        obtain ⟨rfl, -⟩ := h
        rcases List.mem_cons.mp hx with rfl | hx'
        · exact entry_lt_irrefl x
        · exact entry_lt_negtrans (ih _ _ x hm hx')
            (Bool.eq_false_iff.mpr (fun hc => hlt hc))

/-- C2 (amended): the frontier's tie-break is `(f, then node id)`, not
`(f, then g, then node id)` — whenever `find_route`'s pop removes entry
`en` from a queue containing `x`, the entry `x` is not below `en` in the
code's order `entry_lt`, so on equal `f` the popped entry has the
lexicographically least node id among all simultaneously queued entries;
`g` is never consulted before the node id. -/
theorem C2_amended_tiebreak (q : List Entry) (en : Entry) (rest : List Entry)
    (x : Entry) (hpop : popMin entry_lt q = some (en, rest)) (hx : x ∈ q) :
    entry_lt x en = false ∧ en ∈ q :=
  ⟨popMin_not_lt q en rest x hpop hx, popMin_mem entry_lt q en rest hpop⟩

/-- C2 amended, witnessed on the frontier reached inside
`find_route tieGraph "s" "e"`: the pop takes the entry via `a` and the
equal-`f`, lower-`g` entry via `b` does not precede it. -/
theorem C2_amended_tiebreak_witness :
    entry_lt entryViaB entryViaA = false ∧ entryViaA ∈ [entryViaA, entryViaB] :=
  C2_amended_tiebreak [entryViaA, entryViaB] entryViaA [entryViaB] entryViaB
    (by decide) (by decide)

theorem popMin_length (lt : Entry → Entry → Bool) :
    ∀ (q : List Entry) (en : Entry) (rest : List Entry),
      popMin lt q = some (en, rest) → rest.length + 1 = q.length := by
  intro q
  induction q with
  | nil => intro en rest h; simp [popMin] at h
  | cons e es ih =>
    intro en rest h
    simp only [popMin] at h
    cases hm : popMin lt es with
    | none =>
      have hes : es = [] := popMin_eq_none hm
      subst hes
      rw [hm] at h
      simp only [Option.some.injEq, Prod.mk.injEq] at h
      obtain ⟨-, rfl⟩ := h
      rfl
    | some p =>
      obtain ⟨m, r⟩ := p
      rw [hm] at h
      by_cases hlt : lt m e = true
      · simp only [hlt, if_true, Option.some.injEq, Prod.mk.injEq] at h
        obtain ⟨-, rfl⟩ := h
        have := ih m r hm
        simp only [List.length_cons]
        omega
      · simp only [hlt, if_false, Option.some.injEq, Prod.mk.injEq,
          Bool.not_eq_true] at h
        obtain ⟨-, rfl⟩ := h
        rfl

theorem relax_length (G : Graph) (strat : Strategy) (t : Time) (h : NodeId → ℚ)
    (u : NodeId) (path : List RouteStep) (g : ℚ) :
    ∀ (ns : List (NodeId × EdgeData)) (q : List Entry) (mc : NodeId → Option ℚ),
      (relax G strat t h u path g ns q mc).1.length ≤ q.length + ns.length := by
  intro ns
  induction ns with
  | nil => intro q mc; simp [relax]
  | cons vd rest ih =>
    intro q mc
    obtain ⟨v, d⟩ := vd
    simp only [relax]
    split
    · refine le_trans (ih _ _) ?_
      simp only [List.length_append, List.length_singleton, List.length_cons,
        List.length_nil]
      omega
    · refine le_trans (ih _ _) ?_
      simp only [List.length_cons]
      omega

theorem successors_length (G : Graph) (u : NodeId) :
    (successors G u).length ≤ G.edges.length := by
  simp only [successors]
  induction G.edges with
  | nil => simp
  | cons e es ih =>
    simp only [List.filterMap_cons]
    split <;> simp only [List.length_cons] <;> omega

/-- Fuel sufficiency: the search loop consumes strictly less fuel than
`queue.length + budget * (edges + 1)` + 1, so the fuel index in
`find_route_aux` never runs out and the embedded loop genuinely
terminates — by frontier exhaustion, reaching the goal, or the circuit
breaker — for every graph, strategy, heuristic and queue. -/
theorem find_route_aux_isSome_of_fuel (lt : Entry → Entry → Bool) (G : Graph)
    (strat : Strategy) (t : Time) (e : NodeId) (h : NodeId → ℚ) :
    ∀ (fuel : Nat) (q : List Entry) (mc : NodeId → Option ℚ) (budget : Nat),
      q.length + budget * (G.edges.length + 1) < fuel →
      (find_route_aux lt G strat t e h fuel q mc budget).isSome = true := by
  intro fuel
  induction fuel with
  | zero => intro q mc budget hlt; exact absurd hlt (Nat.not_lt_zero _)
  | succ fuel ih =>
    intro q mc budget hlt
    simp only [find_route_aux]
    cases hp : popMin lt q with
    | none => simp
    | some p =>
      obtain ⟨en, rest⟩ := p
      have hqlen := popMin_length lt q en rest hp
      by_cases hgoal : en.node = e
      · simp [hgoal]
      · simp only [hgoal, if_false]
        cases hst : (match mc en.node with
                     | some c => decide (c < en.g)
                     | none => false) with
        | true =>
          simp only [hst, if_true]
          apply ih
          omega
        | false =>
          simp only [hst, Bool.false_eq_true, if_false]
          cases budget with
          | zero => rfl
          | succ b =>
            apply ih
            have h1 := relax_length G strat t h en.node en.path en.g
              (successors G en.node) rest mc
            have h2 := successors_length G en.node
            have hmul : (b + 1) * (G.edges.length + 1) =
                b * (G.edges.length + 1) + (G.edges.length + 1) := by ring
            rw [hmul] at hlt
            have h3 : (relax G strat t h en.node en.path en.g
              (successors G en.node) rest mc).1.length ≤
                rest.length + G.edges.length := le_trans h1 (by omega)
            omega

/-- C3: for every graph, endpoints, time, strategy and heuristic the
search terminates — the fuel `find_route` hands to its loop is provably
never exhausted, the loop popping at most `MAX_VISIT` non-stale entries
before the circuit breaker turns the search into a not-found — and on the
two-node, zero-edge graph the engine returns the uniform not-found result:
`find_route` yields `none` and `find_advanced_path` reports the not-found
error. -/
theorem C3_termination_and_disconnected :
    (∀ (G : Graph) (s e : NodeId) (t : Time) (strat : Strategy) (h : NodeId → ℚ),
      (find_route_aux entry_lt G strat t e h (big_fuel G) [⟨0, s, [], 0⟩]
        (fun n => if n = s then some 0 else none) MAX_VISIT).isSome = true) ∧
    find_route islandGraph "A" "Z" noon .fastest h_zero = none ∧
    find_advanced_path islandGraph "A" "Z" none "fastest" noon h_zero =
      .err "No route found via Advanced Engine." := by
  refine ⟨fun G s e t strat h => ?_, by decide, by decide⟩
  apply find_route_aux_isSome_of_fuel
  simp only [List.length_singleton, big_fuel, MAX_VISIT]
  omega

theorem chain_sum {G : Graph} {strat : Strategy} {t : Time} {s e : NodeId}
    {p : List RouteStep} {g : ℚ} (h : Chain G strat t s p g e) :
    g = (p.map RouteStep.duration_mins).sum := by
  induction h with
  | nil => simp
  | cons hc hm ih => simp [List.map_append, List.sum_append, ← ih]

theorem chain_eq_nil {G : Graph} {strat : Strategy} {t : Time} {s e : NodeId}
    {p : List RouteStep} {g : ℚ} (h : Chain G strat t s p g e) (hp : p = []) :
    s = e ∧ g = 0 := by
  cases h with
  | nil => exact ⟨rfl, rfl⟩
  | cons hc hm => exact absurd hp (by simp)

theorem successors_mem {G : Graph} {u v : NodeId} {d : EdgeData}
    (h : (v, d) ∈ successors G u) : (u, v, d) ∈ G.edges := by
  simp only [successors] at h
  obtain ⟨e, he, hfe⟩ := List.mem_filterMap.mp h
  split at hfe
  case isTrue hu =>
    simp only [Option.some.injEq, Prod.mk.injEq] at hfe
    obtain ⟨rfl, rfl⟩ := hfe
    have he1 : e.1 = u := by simpa using hu
    rw [← he1]
    exact he
  case isFalse => exact absurd hfe Option.noConfusion

theorem popMin_rest_mem (lt : Entry → Entry → Bool) :
    ∀ (q : List Entry) (en : Entry) (rest : List Entry) (x : Entry),
      popMin lt q = some (en, rest) → x ∈ rest → x ∈ q := by
  intro q
  induction q with
  | nil => intro en rest x h; simp [popMin] at h
  | cons e es ih =>
    intro en rest x h hx
    simp only [popMin] at h
    cases hm : popMin lt es with
    | none =>
      rw [hm] at h
      simp only [Option.some.injEq, Prod.mk.injEq] at h
      obtain ⟨-, rfl⟩ := h
      simp at hx
    | some p =>
      obtain ⟨m, r⟩ := p
      rw [hm] at h
      by_cases hlt : lt m e = true
      · simp only [hlt, if_true, Option.some.injEq, Prod.mk.injEq] at h
        obtain ⟨-, rfl⟩ := h
        rcases List.mem_cons.mp hx with rfl | hx'
        · exact List.mem_cons_self _ _
        · exact List.mem_cons_of_mem e (ih m r x hm hx')
      · simp only [hlt, if_false, Option.some.injEq, Prod.mk.injEq,
          Bool.not_eq_true] at h
        obtain ⟨-, rfl⟩ := h
        exact List.mem_cons_of_mem e hx

theorem relax_inv {G : Graph} {strat : Strategy} {t : Time} {h : NodeId → ℚ}
    {s0 u : NodeId} {path : List RouteStep} {g : ℚ}
    (hu : Chain G strat t s0 path g u) :
    ∀ (ns : List (NodeId × EdgeData)) (q : List Entry) (mc : NodeId → Option ℚ),
      (∀ vd ∈ ns, (u, vd.1, vd.2) ∈ G.edges) →
      (∀ en ∈ q, EntryInv G strat t s0 en) →
      ∀ en ∈ (relax G strat t h u path g ns q mc).1, EntryInv G strat t s0 en := by
  intro ns
  induction ns with
  | nil => intro q mc _ hq; simpa [relax] using hq
  | cons vd rest ih =>
    intro q mc hns hq
    obtain ⟨v, d⟩ := vd
    simp only [relax]
    split
    · apply ih
      · intro vd' hvd'
        exact hns vd' (List.mem_cons_of_mem _ hvd')
      · intro en hen
        rcases List.mem_append.mp hen with hen' | hen'
        · exact hq en hen'
        · simp only [List.mem_singleton] at hen'
          subst hen'
          exact Chain.cons hu (hns (v, d) (List.mem_cons_self _ _))
    · apply ih
      · intro vd' hvd'
        exact hns vd' (List.mem_cons_of_mem _ hvd')
      · exact hq

theorem find_route_aux_inv (lt : Entry → Entry → Bool) (G : Graph)
    (strat : Strategy) (t : Time) (e : NodeId) (h : NodeId → ℚ) (s0 : NodeId) :
    ∀ (fuel : Nat) (q : List Entry) (mc : NodeId → Option ℚ) (budget : Nat)
      (r : RouteResult),
      (∀ en ∈ q, EntryInv G strat t s0 en) →
      find_route_aux lt G strat t e h fuel q mc budget = some (some r) →
      Chain G strat t s0 r.path r.total_duration_mins e := by
  intro fuel
  induction fuel with
  | zero => intro q mc budget r _ hres; simp [find_route_aux] at hres
  | succ fuel ih =>
    intro q mc budget r hq hres
    simp only [find_route_aux] at hres
    cases hp : popMin lt q with
    | none => rw [hp] at hres; simp at hres
    | some p =>
      obtain ⟨en, rest⟩ := p
      rw [hp] at hres
      by_cases hgoal : en.node = e
      · simp only [hgoal, if_true, Option.some.injEq] at hres
        have hinv := hq en (popMin_mem lt q en rest hp)
        unfold EntryInv at hinv
        rw [hgoal] at hinv
        rw [← hres]
        exact hinv
      · simp only [hgoal, if_false] at hres
        have hrest : ∀ x ∈ rest, EntryInv G strat t s0 x := fun x hx =>
          hq x (popMin_rest_mem lt q en rest x hp hx)
        cases hst : (match mc en.node with
                     | some c => decide (c < en.g)
                     | none => false) with
        | true =>
          rw [hst] at hres
          simp only [if_true] at hres
          exact ih rest mc budget r hrest hres
        | false =>
          rw [hst] at hres
          simp only [Bool.false_eq_true, if_false] at hres
          cases budget with
          | zero => simp at hres
          | succ b =>
            have hen := hq en (popMin_mem lt q en rest hp)
            unfold EntryInv at hen
            refine ih _ _ b r ?_ hres
            exact relax_inv hen (successors G en.node) rest mc
              (fun vd hvd => successors_mem (by simpa using hvd)) hrest

/-- C9: every successful `find_route` result is internally consistent —
its path is a `Chain` (each step is built from a traversed graph edge and
costs exactly the selected strategy's cost of that edge at the departure
time), its total equals the sum of the per-step costs, and the path is
empty only when start equals end, in which case the total is 0. -/
theorem C9_route_result_consistency (G : Graph) (s e : NodeId) (t : Time)
    (strat : Strategy) (h : NodeId → ℚ) (r : RouteResult)
    (hr : find_route G s e t strat h = some r) :
    Chain G strat t s r.path r.total_duration_mins e ∧
    r.total_duration_mins = (r.path.map RouteStep.duration_mins).sum ∧
    (r.path = [] → s = e ∧ r.total_duration_mins = 0) := by
  unfold find_route at hr
  split at hr
  · cases haux : find_route_aux entry_lt G strat t e h (big_fuel G)
      [⟨0, s, [], 0⟩] (fun n => if n = s then some 0 else none) MAX_VISIT with
    | none => rw [haux] at hr; simp at hr
    | some x =>
      rw [haux] at hr
      simp only [Option.getD_some] at hr
      subst hr
      have hchain := find_route_aux_inv entry_lt G strat t e h s
        (big_fuel G) [⟨0, s, [], 0⟩] (fun n => if n = s then some 0 else none)
        MAX_VISIT r
        (by
          intro en hen
          simp only [List.mem_singleton] at hen
          subst hen
          exact Chain.nil s)
        haux
      refine ⟨hchain, chain_sum hchain, ?_⟩
      intro hpath
      exact chain_eq_nil hchain hpath
  · exact absurd hr (Option.noConfusion)

/-- C9 witnessed on the comfort scenario's successful search. -/
theorem C9_route_result_consistency_witness :
    Chain comfortGraph .comfort noon "A" comfortResult.path
      comfortResult.total_duration_mins "B" ∧
    comfortResult.total_duration_mins =
      (comfortResult.path.map RouteStep.duration_mins).sum ∧
    (comfortResult.path = [] → "A" = "B" ∧ comfortResult.total_duration_mins = 0) :=
  C9_route_result_consistency comfortGraph "A" "B" noon .comfort h_zero
    comfortResult (by decide)

/-- C4: the Comfort strategy scales the Fastest cost by 0.8 on
metro/rail/tram edges, by 1.2 on bus/minibus edges, and by 1.0 on every
other mode; consequently, on the graph with a 600 s bus edge A→B against
360 s metro edges A→M and M→B, the comfort search from A to B returns the
two-leg metro route of perceived cost 9.6 minutes (the rejected direct bus
edge being perceived at 12 minutes). -/
theorem C4_comfort_factor_and_metro_selection :
    (∀ (e : EdgeData) (t : Time),
      calculate_cost .comfort e t =
        calculate_cost .fastest e t *
          (if e.type = "metro" ∨ e.type = "rail" ∨ e.type = "tram" then 8/10
           else if e.type = "bus" ∨ e.type = "minibus" then 12/10
           else 1)) ∧
    find_route comfortGraph "A" "B" noon .comfort h_zero = some comfortResult ∧
    comfortResult.total_duration_mins = 96/10 ∧
    calculate_cost .comfort ⟨600, "bus", ""⟩ noon = 12 := by
  refine ⟨fun e t => ?_, by decide, by decide, by decide⟩
  simp only [calculate_cost]
  split_ifs <;> ring

/-- C5 counterexample: no strategy clamps its result at 0 — on an edge
whose stored duration is −60 seconds the Fastest strategy returns −1
minute, a negative perceived cost. -/
theorem C5_counterexample :
    calculate_cost .fastest ⟨-60, "walk", ""⟩ noon = -1 ∧
    ¬ (0 ≤ calculate_cost .fastest ⟨-60, "walk", ""⟩ noon) := by
  refine ⟨by decide, by decide⟩

/-- C5 (amended): the router strategies perform no clamping, so their
result is only guaranteed nonnegative when the stored edge duration is
nonnegative (which the upstream ETL contract promises); the `max(0, ...)`
clamp lives in `get_perceived_cost` of `core/graph.py`, which is
nonnegative on every input. -/
theorem C5_amended_nonneg (strat : Strategy) (e : EdgeData) (t : Time)
    (travel_mins : ℚ) (line_type profile_type : String) (slope : ℚ)
    (hw : 0 ≤ e.weight) :
    0 ≤ calculate_cost strat e t ∧
    0 ≤ get_perceived_cost travel_mins line_type profile_type slope := by
  have hpm : 0 ≤ predict_delay_factor t.hour := by
    simp only [predict_delay_factor]
    split_ifs <;> norm_num
  have hfast : 0 ≤ fastest_cost e t := by
    simp only [fastest_cost]
    split_ifs
    · exact div_nonneg (mul_nonneg hw hpm) (by norm_num)
    · exact div_nonneg (mul_nonneg hw (by norm_num)) (by norm_num)
  constructor
  · cases strat with
    | fastest => exact hfast
    | comfort =>
      simp only [calculate_cost]
      split_ifs <;> positivity
    | economic =>
      simp only [calculate_cost]
      split_ifs <;> positivity
  · simp only [get_perceived_cost]
    exact le_max_left 0 _

/-- C5 amended, witnessed at a bus edge in the morning rush and a COMFORT
bus leg. -/
theorem C5_amended_nonneg_witness :
    0 ≤ calculate_cost .fastest ⟨600, "bus", ""⟩ ⟨8, 0⟩ ∧
    0 ≤ get_perceived_cost 10 "Bus" "COMFORT" 0 :=
  C5_amended_nonneg .fastest ⟨600, "bus", ""⟩ ⟨8, 0⟩ 10 "Bus" "COMFORT" 0 (by decide)

theorem find_node_aux_eq_find? (q : String) :
    ∀ l : List (NodeId × NodeData),
      find_node_aux q l = (l.find? (fun p => name_matches q p.2)).map Prod.fst := by
  intro l
  induction l with
  | nil => rfl
  | cons p rest ih =>
    obtain ⟨n, d⟩ := p
    simp only [find_node_aux, List.find?_cons]
    by_cases hmatch : name_matches q d = true
    · simp [hmatch]
    · simp only [Bool.not_eq_true] at hmatch
      simp [hmatch, ih]

theorem find_node_by_name_mem {G : Graph} {q : String} {n : NodeId}
    (h : find_node_by_name G q = some n) : n ∈ nodeIds G := by
  unfold find_node_by_name at h
  split at h
  · exact absurd h Option.noConfusion
  · rw [find_node_aux_eq_find? q G.nodes] at h
    obtain ⟨p, hfind, hp⟩ := Option.map_eq_some.mp h
    subst hp
    exact List.mem_map_of_mem Prod.fst (List.mem_of_find?_eq_some hfind)

/-- C6 (amended): for a non-empty query, the fuzzy resolver returns the
first node in the graph's storage (insertion) iteration order — not in
id-sorted order — whose lowercased name contains the lowercased query, and
returns not-found exactly when no stored node name contains the query. -/
theorem C6_amended_storage_order (G : Graph) (q : String) (hq : q ≠ "") :
    find_node_by_name G q =
      (G.nodes.find? (fun p => name_matches q p.2)).map Prod.fst ∧
    (find_node_by_name G q = none ↔
      ∀ p ∈ G.nodes, name_matches q p.2 = false) := by
  have heq : find_node_by_name G q = find_node_aux q G.nodes := by
    simp [find_node_by_name, hq]
  constructor
  · rw [heq]
    exact find_node_aux_eq_find? q G.nodes
  · rw [heq, find_node_aux_eq_find? q G.nodes]
    simp [List.find?_eq_none]

/-- C6 amended, witnessed on the two-match graph: the returned node is the
`find?`-first of the stored node list. -/
theorem C6_amended_storage_order_witness :
    find_node_by_name kadikoyGraph "kad" =
      (kadikoyGraph.nodes.find? (fun p => name_matches "kad" p.2)).map Prod.fst :=
  (C6_amended_storage_order kadikoyGraph "kad" (by decide)).1

/-- C7: an endpoint identifier that matches no node id and fuzzy-matches no
node name makes `find_advanced_path` return the error naming that endpoint
— for every graph, time string, strategy string, clock and heuristic, so
in particular before and independently of any search work — while an
identifier that is not a node id but does fuzzy-match a name is replaced
by the matched node and the call proceeds exactly as if that node had been
passed. -/
theorem C7_fail_fast_resolution (G : Graph) (s e : String) (ts : Option String)
    (st : String) (now : Time) (h : NodeId → ℚ) :
    (s ∉ nodeIds G → find_node_by_name G s = none →
      find_advanced_path G s e ts st now h =
        .err ("Start '" ++ s ++ "' not found.")) ∧
    (s ∉ nodeIds G → ∀ n, find_node_by_name G s = some n →
      find_advanced_path G s e ts st now h =
        find_advanced_path G n e ts st now h) ∧
    (s ∈ nodeIds G → e ∉ nodeIds G → find_node_by_name G e = none →
      find_advanced_path G s e ts st now h =
        .err ("End '" ++ e ++ "' not found.")) ∧
    (s ∈ nodeIds G → e ∉ nodeIds G → ∀ n, find_node_by_name G e = some n →
      find_advanced_path G s e ts st now h =
        find_advanced_path G s n ts st now h) := by
  refine ⟨?_, ?_, ?_, ?_⟩
  · intro hs hfuzz
    simp [find_advanced_path, resolve_endpoint, hs, hfuzz]
  · intro hs n hfuzz
    have hn : n ∈ nodeIds G := find_node_by_name_mem hfuzz
    simp [find_advanced_path, resolve_endpoint, hs, hfuzz, hn]
  · intro hs he hfuzz
    simp [find_advanced_path, resolve_endpoint, hs, he, hfuzz]
  · intro hs he n hfuzz
    have hn : n ∈ nodeIds G := find_node_by_name_mem hfuzz
    simp [find_advanced_path, resolve_endpoint, hs, he, hfuzz, hn]

/-- C7 witnessed: an unresolvable start id errors out on the island graph. -/
theorem C7_fail_fast_resolution_witness :
    find_advanced_path islandGraph "Zzz" "A" none "fastest" noon h_zero =
      .err "Start 'Zzz' not found." :=
  (C7_fail_fast_resolution islandGraph "Zzz" "A" none "fastest" noon h_zero).1
    (by decide) (by decide)

/-- C8: a departure-time string that fails to parse as `HH:MM` is never
reported — the call behaves exactly as if no time had been supplied (the
search runs against the process clock) — while a parsable `H:M` string
makes the call behave as if the process clock already read that hour and
minute, which is the time handed to the cost strategy. -/
theorem C8_time_leniency (G : Graph) (s e : String) (st : String) (now : Time)
    (h : NodeId → ℚ) (str : String) :
    (parse_hm str = none →
      find_advanced_path G s e (some str) st now h =
        find_advanced_path G s e none st now h) ∧
    (∀ hh mm, parse_hm str = some (hh, mm) →
      find_advanced_path G s e (some str) st now h =
        find_advanced_path G s e none st ⟨hh, mm⟩ h) := by
  constructor
  · intro hparse
    simp [find_advanced_path, departure_time, hparse]
  · intro hh mm hparse
    simp [find_advanced_path, departure_time, hparse]

/-- C8 witnessed: a malformed string behaves like an absent one, and
"08:30" behaves like a clock reading 08:30. -/
theorem C8_time_leniency_witness :
    (find_advanced_path islandGraph "A" "Z" (some "ab:cd") "fastest" noon h_zero =
      find_advanced_path islandGraph "A" "Z" none "fastest" noon h_zero) ∧
    (find_advanced_path islandGraph "A" "Z" (some "08:30") "fastest" noon h_zero =
      find_advanced_path islandGraph "A" "Z" none "fastest" ⟨8, 30⟩ h_zero) :=
  ⟨(C8_time_leniency islandGraph "A" "Z" "fastest" noon h_zero "ab:cd").1
      (by decide),
    (C8_time_leniency islandGraph "A" "Z" "fastest" noon h_zero "08:30").2 8 30
      (by decide)⟩

/-- C10: a strategy string outside fastest/comfort/economic is silently
mapped to the Fastest strategy — the call is indistinguishable from the
same call with "fastest". -/
theorem C10_unknown_strategy_is_fastest (G : Graph) (s e : String)
    (ts : Option String) (now : Time) (h : NodeId → ℚ) (st : String)
    (h1 : st ≠ "fastest") (h2 : st ≠ "comfort") (h3 : st ≠ "economic") :
    find_advanced_path G s e ts st now h =
      find_advanced_path G s e ts "fastest" now h := by
  have hsel : select_strategy st = Strategy.fastest := by
    simp [select_strategy, h1, h2, h3]
  have hsel2 : select_strategy "fastest" = Strategy.fastest := rfl
  simp [find_advanced_path, hsel, hsel2]

/-- C10 witnessed on a typo strategy string. -/
theorem C10_unknown_strategy_is_fastest_witness :
    find_advanced_path islandGraph "A" "Z" none "fastets" noon h_zero =
      find_advanced_path islandGraph "A" "Z" none "fastest" noon h_zero :=
  C10_unknown_strategy_is_fastest islandGraph "A" "Z" none noon h_zero "fastets"
    (by decide) (by decide) (by decide)

/-- C6 counterexample: the fuzzy resolver walks the nodes in storage
(insertion) order, not sorted by id — on a graph storing node `"b"` before
node `"a"`, both of whose names contain "kadikoy", the code returns `"b"`
while the claimed id-sorted iteration would return `"a"`. -/
theorem C6_counterexample :
    find_node_by_name kadikoyGraph "kadikoy" = some "b" ∧
    find_node_by_name_sorted kadikoyGraph "kadikoy" = some "a" ∧
    ("b" : NodeId) ≠ "a" := by
  refine ⟨by decide, by decide, by decide⟩

